import Mathlib

/-!
Verification of the enum-dispatch code generator (src/src/lib.rs) of
declarative_enum_dispatch.

The generator is a single-pass rewriter: it receives a trait block and an
enum block and emits (1) the trait unchanged, (2) the enum unchanged,
(3) an implementation of the trait for the enum whose every method is a
branch-on-tag over the variants, and (4) one From conversion per variant.
The shallow embedding below mirrors the three rewriting layers of the
source: the per-method classifier arms of __munch_methods (lines 297-331),
the arm builder __build_method / @make_match (lines 268-291), and the
top-level entry enum_dispatch (lines 334-369).  Build-configuration
attributes are reproduced verbatim by the generator and later evaluated by
the host; that host evaluation is modelled by the filter functions further
down.
-/

/-- Attribute token span attached to a method or variant: a
conditional-inclusion marker (a cfg feature gate) or an opaque reproduced
token span (doc comment, lint suppression, derive, ...). -/
inductive Attr
  | cfgFeature (flag : String)
  | other (tokens : String)
  deriving DecidableEq, Repr, Inhabited

/-- Tokens standing in the receiver position of a raw method declaration,
exactly as discriminated by the six classifier arms of __munch_methods:
a lone identifier, an identifier behind a shared reference, an identifier
behind a mutable reference, or anything else (empty position, a typed
first parameter, malformed tokens). -/
inductive RecvShape
  | empty
  | plainIdent (name : String)
  | refIdent (name : String)
  | refMutIdent (name : String)
  | typedParam (name ty : String)
  | otherTokens (tokens : String)
  deriving DecidableEq, Repr, Inhabited

/-- One raw method declaration of the trait body, before classification.
methodDef is the nonempty identifier run captured before the parameter
list (for example [fn, area] or [async, fn, send]); body is the optional
default-body token span. -/
structure RawMethod where
  attrs : List Attr
  methodDef : List String
  recv : RecvShape
  args : List (String × String)
  ret : Option String
  body : Option String
  deriving DecidableEq, Repr, Inhabited

/-- One enum variant: attributes, variant name, payload type. -/
structure Variant where
  attrs : List Attr
  name : String
  payloadType : String
  deriving DecidableEq, Repr, Inhabited

/-- The self-reference form selected by the matched classifier arm: the
token span inserted before the receiver name in the generated signature. -/
inductive SelfRef
  | byValue
  | byRef
  | byMutRef
  deriving DecidableEq, Repr, Inhabited

/-- Expression emitted as the value of one match arm: a forwarded call on
the bound payload, possibly suspended on (awaited). -/
inductive ArmExpr
  | call (recv method : String) (args : List String)
  | await (e : ArmExpr)
  deriving DecidableEq, Repr, Inhabited

/-- One arm of the generated branch-on-tag: the variant attributes are
reproduced in front of the pattern EnumName::Variant(v). -/
structure MatchArm where
  varAttrs : List Attr
  enumName : String
  variantName : String
  body : ArmExpr
  deriving DecidableEq, Repr, Inhabited

/-- One generated forwarding method of the implementation block. -/
structure GenMethod where
  attrs : List Attr
  methodDef : List String
  selfRef : SelfRef
  selfName : String
  args : List (String × String)
  ret : Option String
  scrutinee : String
  arms : List MatchArm
  deriving DecidableEq, Repr, Inhabited

/-- The trait block as captured by enum_dispatch: header pieces plus the
raw method list (the body tokens are re-emitted verbatim). -/
structure TraitDecl where
  attrs : List Attr
  vis : String
  name : String
  lifetimeBound : Option String
  superTraits : List (List String)
  methods : List RawMethod
  deriving DecidableEq, Repr, Inhabited

/-- The enum block as captured by enum_dispatch. -/
structure EnumDecl where
  attrs : List Attr
  vis : String
  name : String
  variants : List Variant
  deriving DecidableEq, Repr, Inhabited

/-- One generated conversion: impl From(sourceType) for enumName wrapping
into variantName, carrying the variant attributes. -/
structure FromImpl where
  attrs : List Attr
  sourceType : String
  enumName : String
  variantName : String
  deriving DecidableEq, Repr, Inhabited

/-- Everything enum_dispatch emits at the invocation site. -/
structure Output where
  traitDecl : TraitDecl
  enumDecl : EnumDecl
  implTrait : String
  implFor : String
  implMethods : List GenMethod
  fromImpls : List FromImpl
  deriving DecidableEq, Repr, Inhabited

/-- A top-level block handed to the enum_dispatch entry point. -/
inductive TopDecl
  | traitBlock (t : TraitDecl)
  | enumBlock (e : EnumDecl)
  deriving DecidableEq, Repr, Inhabited

/-- Receiver classification performed by the arm selection of
__munch_methods (lines 301-326): a lone identifier is a by-value receiver,
an identifier behind a reference a by-ref receiver, behind a mutable
reference a by-mut-ref receiver; every other receiver position falls to
the fallback arm (line 328). -/
def classifyRecv : RecvShape → Option (SelfRef × String)
  | .plainIdent n => some (.byValue, n)
  | .refIdent n => some (.byRef, n)
  | .refMutIdent n => some (.byMutRef, n)
  | _ => none

/-- The @make_match arms of __build_method (lines 275-290): for a plain
method the arm value is the forwarded call, for an async method it is the
forwarded call awaited; any other methodDef run matches no arm. -/
def make_match (methodDef : List String) (enumName : String)
    (variants : List Variant) (argNames : List String) : Option (List MatchArm) :=
  match methodDef with
  | ["fn", method] =>
      some (variants.map fun v =>
        ⟨v.attrs, enumName, v.name, .call "v" method argNames⟩)
  | ["async", "fn", method] =>
      some (variants.map fun v =>
        ⟨v.attrs, enumName, v.name, .await (.call "v" method argNames)⟩)
  | _ => none

/-- Top arm of __build_method (lines 269-273): reproduce the signature
pieces verbatim and make the body a branch-on-tag over the scrutinee. -/
def __build_method (attrs : List Attr) (methodDef : List String) (selfRef : SelfRef)
    (selfName : String) (args : List (String × String)) (ret : Option String)
    (variants : List Variant) (enumName : String) : Option GenMethod :=
  (make_match methodDef enumName variants (args.map Prod.fst)).map fun arms =>
    ⟨attrs, methodDef, selfRef, selfName, args, ret, selfName, arms⟩

/-- Diagnostic emitted by the fallback arm of __munch_methods (line 329):
concat of a fixed prefix, the stringified methodDef run, and a fixed
suffix.  Stringification joins the captured identifiers with spaces. -/
def missingReceiverMsg (methodDef : List String) : String :=
  "method `" ++ " ".intercalate methodDef ++ "` should receive self"

/-- Diagnostic modelling a rewriting arm mismatch inside __build_method
(no @make_match arm applies to the methodDef run). -/
def noRuleMsg : String := "no rules expected this token in __build_method"

/-- The method muncher __munch_methods (lines 297-331): consume the trait
body one method at a time, classify the receiver position, build the
forwarding method, and recurse; a receiver position matching none of the
six shapes reaches the fallback arm, which emits the missing-receiver
diagnostic and stops.  Whether a default body is present only selects
between the no-block and block classifier arms, which forward identical
captures. -/
def __munch_methods (methods : List RawMethod) (variants : List Variant)
    (enumName : String) : Except String (List GenMethod) :=
  match methods with
  | [] => .ok []
  | m :: rest =>
    match classifyRecv m.recv with
    | some (sr, selfName) =>
      match __build_method m.attrs m.methodDef sr selfName m.args m.ret variants enumName with
      | some gm => (__munch_methods rest variants enumName).map (gm :: ·)
      | none => .error noRuleMsg
    | none => .error (missingReceiverMsg m.methodDef)

/-- Diagnostic modelling failure of the single enum_dispatch matcher arm
(wrong block order, missing blocks, or an empty variant list, which the
one-or-more variant repetition rejects). -/
def structuralMismatchMsg : String := "no rules expected this token in enum_dispatch"

/-- The enum_dispatch entry point (lines 334-369): the single matcher arm
accepts exactly a trait block followed by an enum block with at least one
variant; it re-emits both blocks, munches the trait body into the
implementation block, and appends one From conversion per variant, each
carrying the variant attributes. -/
def enum_dispatch (input : List TopDecl) : Except String Output :=
  match input with
  | [.traitBlock t, .enumBlock e] =>
    if e.variants = [] then .error structuralMismatchMsg
    else
      match __munch_methods t.methods e.variants e.name with
      | .ok ms =>
          .ok ⟨t, e, t.name, e.name, ms,
            e.variants.map fun v => ⟨v.attrs, v.payloadType, e.name, v.name⟩⟩
      | .error msg => .error msg
  | _ => .error structuralMismatchMsg

/-- Host evaluation of one reproduced attribute under a build
configuration (the list of enabled feature flags): a cfg gate is active
exactly when its flag is enabled; every other attribute keeps its item. -/
def attrActive (cfg : List String) : Attr → Bool
  | .cfgFeature f => cfg.contains f
  | .other _ => true

/-- An item survives the host's conditional-compilation pass exactly when
all of its attributes are active. -/
def attrsActive (cfg : List String) (attrs : List Attr) : Bool :=
  attrs.all (attrActive cfg)

/-- Variants remaining in the emitted enum after host cfg evaluation. -/
def filterVariants (cfg : List String) (vs : List Variant) : List Variant :=
  vs.filter fun v => attrsActive cfg v.attrs

/-- Arms remaining in a generated branch-on-tag after host cfg evaluation
of the reproduced variant attributes. -/
def filterArms (cfg : List String) (arms : List MatchArm) : List MatchArm :=
  arms.filter fun a => attrsActive cfg a.varAttrs

/-- Conversions remaining after host cfg evaluation of the variant
attributes each From impl carries. -/
def filterFromImpls (cfg : List String) (fs : List FromImpl) : List FromImpl :=
  fs.filter fun f => attrsActive cfg f.attrs

/-- A runtime tagged-union value: the tag names the variant holding the
payload. -/
structure UnionValue (α : Type) where
  tag : String
  payload : α
  deriving DecidableEq, Repr

/-- Running a generated conversion (lines 362-366): EnumName::Variant(value). -/
def applyFrom {α : Type} (f : FromImpl) (value : α) : UnionValue α :=
  ⟨f.variantName, value⟩

/-- Value of an arm expression: a forwarded call is interpreted by impls
(method name, argument values, payload); the awaited form yields the value
the host runtime resumes with, which is the forwarded call's value. -/
def evalArmExpr {α β γ : Type} (impls : String → List α → β → γ)
    (env : String → α) (payload : β) : ArmExpr → γ
  | .call _ m argNames => impls m (argNames.map env) payload
  | .await e => evalArmExpr impls env payload e

/-- Running a generated branch-on-tag on a union value: select the arm
whose variant pattern matches the scrutinee's tag, bind the payload, and
evaluate the arm's expression.  impls gives, per variant, the concrete
payload type's own methods. -/
def evalMatch {α β γ : Type} (impls : String → String → List α → β → γ)
    (env : String → α) (arms : List MatchArm) (u : UnionValue β) : Option γ :=
  match arms.find? (fun a => a.variantName == u.tag) with
  | some a => some (evalArmExpr (impls u.tag) env u.payload a.body)
  | none => none

/-- Rect collaborator from src/examples/example.rs (i32 fields modelled as
integers). -/
structure Rect where
  w : Int
  h : Int
  deriving DecidableEq, Repr, Inhabited

/-- Circle collaborator from src/examples/example.rs (the bare name Circle
is taken by the mathematical library). -/
structure CircleShape where
  r : Int
  deriving DecidableEq, Repr, Inhabited

/-- Rect::grow from src/examples/example.rs lines 59-62; Rust i32 division
truncates toward zero, which is Int.tdiv. -/
def Rect.grow (self : Rect) (numerator denominator : Int) : Rect :=
  ⟨Int.tdiv (self.w * numerator) denominator, Int.tdiv (self.h * numerator) denominator⟩

/-- Circle::grow from src/examples/example.rs lines 81-83. -/
def CircleShape.grow (self : CircleShape) (numerator denominator : Int) : CircleShape :=
  ⟨Int.tdiv (self.r * numerator) denominator⟩

/-- Payload domain of the example Shape union. -/
inductive ShapePayload
  | rect (r : Rect)
  | circle (c : CircleShape)
  deriving DecidableEq, Repr, Inhabited

/-- Concrete methods of the example payload types, keyed by variant name
and method name, for the mutating grow method: each variant forwards to
its own payload type's grow. -/
def shapeImpl : String → String → List Int → ShapePayload → ShapePayload
  | "Rect", "grow", [n, d], .rect r => .rect (r.grow n d)
  | "Circle", "grow", [n, d], .circle c => .circle (c.grow n d)
  | _, _, _, p => p

/-- Strip a raw method's default body (the span the muncher discards). -/
def stripBody (m : RawMethod) : RawMethod :=
  { m with body := none }

/-- Rect variant of the example enum. -/
def rectVariant : Variant := ⟨[], "Rect", "Rect"⟩

/-- Circle variant of the example enum. -/
def circleVariant : Variant := ⟨[], "Circle", "Circle"⟩

/-- Cube variant, gated on the platform_specific feature. -/
def cubeVariant : Variant := ⟨[.cfgFeature "platform_specific"], "Cube", "Cube"⟩

/-- The name method of the example trait. -/
def nameMethod : RawMethod := ⟨[], ["fn", "name"], .refIdent "self", [], some "String", none⟩

/-- The grow method of the example trait. -/
def growMethod : RawMethod :=
  ⟨[], ["fn", "grow"], .refMutIdent "self",
    [("numerator", "i32"), ("denominator", "i32")], none, none⟩

/-- The print_name method, carrying a default body. -/
def printNameMethod : RawMethod :=
  ⟨[], ["fn", "print_name"], .refIdent "self", [], none, some "println body"⟩

/-- The async send method of the example trait. -/
def sendMethod : RawMethod :=
  ⟨[.other "allow(async_fn_in_trait)"], ["async", "fn", "send"], .refIdent "self", [], none, none⟩

/-- The feature-gated by-value platform_specific method. -/
def platformMethod : RawMethod :=
  ⟨[.cfgFeature "platform_specific"], ["fn", "platform_specific"], .plainIdent "self", [], none, none⟩

/-- Two-method trait of the C8 scenario: name and grow. -/
def traitTwo : TraitDecl :=
  ⟨[], "pub", "ShapeTrait", none, [["Clone"], ["std", "fmt", "Debug"]],
    [nameMethod, growMethod]⟩

/-- Two-variant enum of the C8 scenario. -/
def enumTwo : EnumDecl :=
  ⟨[.other "derive(Debug, Clone)"], "pub", "Shape", [rectVariant, circleVariant]⟩

/-- Invocation input of the C8 scenario. -/
def inputTwo : List TopDecl := [.traitBlock traitTwo, .enumBlock enumTwo]

/-- Output of the generator on the C8 scenario. -/
def outTwo : Output :=
  match enum_dispatch inputTwo with
  | .ok o => o
  | .error _ => default

/-- Full example trait from the crate documentation. -/
def traitFull : TraitDecl :=
  ⟨[], "pub", "ShapeTrait", none, [["Clone"], ["std", "fmt", "Debug"]],
    [printNameMethod, nameMethod, growMethod, sendMethod, platformMethod]⟩

/-- Full example enum including the feature-gated Cube variant. -/
def enumFull : EnumDecl :=
  ⟨[.other "derive(Debug, Clone)"], "pub", "Shape", [rectVariant, circleVariant, cubeVariant]⟩

/-- Invocation input of the full example. -/
def inputFull : List TopDecl := [.traitBlock traitFull, .enumBlock enumFull]

/-- Output of the generator on the full example. -/
def outFull : Output :=
  match enum_dispatch inputFull with
  | .ok o => o
  | .error _ => default

/-- A trait whose single method has a typed first parameter instead of a
receiver: fn foo(x: i32). -/
def badTrait : TraitDecl :=
  ⟨[], "pub", "FooTrait", none, [],
    [⟨[], ["fn", "foo"], .typedParam "x" "i32", [], none, none⟩]⟩

/-- Filtering after mapping is mapping after filtering on the composed
predicate. -/
theorem filter_of_map {α β : Type} (f : α → β) (p : β → Bool) (l : List α) :
    (l.map f).filter p = (l.filter fun x => p (f x)).map f := by
  induction l with
  | nil => rfl
  | cons x xs ih => by_cases h : p (f x) <;> simp [h, ih]

/-- Under the identity interpretation the value of any arm expression is
the bound payload itself. -/
theorem evalArmExpr_id {α β : Type} (env : String → α) (payload : β) (b : ArmExpr) :
    evalArmExpr (fun _ _ p => p) env payload b = payload := by
  induction b with
  | call r m args => rfl
  | await e ih => simpa [evalArmExpr] using ih

/-- Inversion of the @make_match arms: success means the methodDef run was
a plain or an async method header, and the arms are the variant list
mapped, in order, to forwarding arms of the corresponding shape. -/
theorem make_match_ok (methodDef : List String) (enumName : String)
    (variants : List Variant) (argNames : List String) (arms : List MatchArm)
    (h : make_match methodDef enumName variants argNames = some arms) :
    (∃ nm, methodDef = ["fn", nm] ∧
      arms = variants.map fun v => ⟨v.attrs, enumName, v.name, .call "v" nm argNames⟩) ∨
    (∃ nm, methodDef = ["async", "fn", nm] ∧
      arms = variants.map fun v => ⟨v.attrs, enumName, v.name, .await (.call "v" nm argNames)⟩) := by
  unfold make_match at h
  split at h
  · exact Or.inl ⟨_, rfl, (Option.some.injEq _ _ ▸ h).symm⟩
  · exact Or.inr ⟨_, rfl, (Option.some.injEq _ _ ▸ h).symm⟩
  · exact absurd h (by simp)

/-- Characterisation of a successful muncher run: the generated methods
reproduce the raw methods' headers, attributes, arguments and return types
in declaration order, and every generated method's body is the variant
list mapped, in order, to forwarding arms matching the method's shape. -/
theorem munch_ok_spec (methods : List RawMethod) (variants : List Variant)
    (enumName : String) (gms : List GenMethod)
    (h : __munch_methods methods variants enumName = .ok gms) :
    gms.map (·.methodDef) = methods.map (·.methodDef) ∧
    gms.map (·.attrs) = methods.map (·.attrs) ∧
    gms.map (·.args) = methods.map (·.args) ∧
    gms.map (·.ret) = methods.map (·.ret) ∧
    ∀ gm ∈ gms,
      (∃ nm, gm.methodDef = ["fn", nm] ∧
        gm.arms = variants.map fun v =>
          ⟨v.attrs, enumName, v.name, .call "v" nm (gm.args.map Prod.fst)⟩) ∨
      (∃ nm, gm.methodDef = ["async", "fn", nm] ∧
        gm.arms = variants.map fun v =>
          ⟨v.attrs, enumName, v.name, .await (.call "v" nm (gm.args.map Prod.fst))⟩) := by
  induction methods generalizing gms with
  | nil =>
    rw [__munch_methods] at h
    obtain rfl : ([] : List GenMethod) = gms := by simpa using h
    simp
  | cons m rest ih =>
    rw [__munch_methods] at h
    cases hc : classifyRecv m.recv with
    | none => simp [hc] at h
    | some p =>
      obtain ⟨sr, sn⟩ := p
      simp only [hc] at h
      cases hb : __build_method m.attrs m.methodDef sr sn m.args m.ret variants enumName with
      | none => simp [hb] at h
      | some gm0 =>
        simp only [hb] at h
        cases hr : __munch_methods rest variants enumName with
        | error msg => simp [hr, Except.map] at h
        | ok gms' =>
          simp only [hr, Except.map, Except.ok.injEq] at h
          subst h
          obtain ⟨ih1, ih2, ih3, ih4, ih5⟩ := ih gms' hr
          unfold __build_method at hb
          obtain ⟨arms, hmm, hgm⟩ := Option.map_eq_some'.mp hb
          subst hgm
          refine ⟨by simpa using ih1, by simpa using ih2, by simpa using ih3,
            by simpa using ih4, ?_⟩
          intro gm hgm
          rcases List.mem_cons.mp hgm with rfl | hgm'
          · rcases make_match_ok m.methodDef enumName variants (m.args.map Prod.fst) arms hmm with
              ⟨nm, hdef, harms⟩ | ⟨nm, hdef, harms⟩
            · exact Or.inl ⟨nm, hdef, harms⟩
            · exact Or.inr ⟨nm, hdef, harms⟩
          · exact ih5 gm hgm'

/-- The muncher never inspects a raw method's default-body span: stripping
every default body leaves its result unchanged. -/
theorem munch_stripBody (methods : List RawMethod) (variants : List Variant)
    (enumName : String) :
    __munch_methods (methods.map stripBody) variants enumName =
      __munch_methods methods variants enumName := by
  induction methods with
  | nil => rfl
  | cons m rest ih =>
    rw [List.map_cons, __munch_methods, __munch_methods]
    have hrecv : (stripBody m).recv = m.recv := rfl
    have hattrs : (stripBody m).attrs = m.attrs := rfl
    have hdef : (stripBody m).methodDef = m.methodDef := rfl
    have hargs : (stripBody m).args = m.args := rfl
    have hret : (stripBody m).ret = m.ret := rfl
    rw [hrecv, hattrs, hdef, hargs, hret, ih]

/-- Inversion of a successful enum_dispatch run: the variant list was
nonempty, the implementation block is the muncher's result on the trait
body, and every other output field is determined by the two input blocks. -/
theorem dispatch_ok_inv (t : TraitDecl) (e : EnumDecl) (out : Output)
    (h : enum_dispatch [.traitBlock t, .enumBlock e] = .ok out) :
    e.variants ≠ [] ∧
    __munch_methods t.methods e.variants e.name = .ok out.implMethods ∧
    out.traitDecl = t ∧ out.enumDecl = e ∧
    out.implTrait = t.name ∧ out.implFor = e.name ∧
    out.fromImpls = e.variants.map fun v => ⟨v.attrs, v.payloadType, e.name, v.name⟩ := by
  rw [enum_dispatch] at h
  by_cases he : e.variants = []
  · rw [if_pos he] at h; exact absurd h (by simp)
  · rw [if_neg he] at h
    cases hm : __munch_methods t.methods e.variants e.name with
    | error msg => simp [hm] at h
    | ok ms =>
      simp only [hm] at h
      have h2 : (⟨t, e, t.name, e.name, ms,
          e.variants.map fun v => ⟨v.attrs, v.payloadType, e.name, v.name⟩⟩ : Output) = out :=
        Except.ok.inj h
      subst h2
      exact ⟨he, rfl, rfl, rfl, rfl, rfl, rfl⟩

/-- C1: for every contract with k methods and union with n variants
accepted by the generator, the implementation block contains exactly k
forwarding methods in the contract's method-declaration order, and each
method's branch-on-tag has exactly n arms, one per variant, in
variant-declaration order, with no sorting, reordering or deduplication. -/
theorem impl_block_has_k_methods_n_arms_in_order (t : TraitDecl) (e : EnumDecl)
    (out : Output) (h : enum_dispatch [.traitBlock t, .enumBlock e] = .ok out) :
    out.implMethods.map (·.methodDef) = t.methods.map (·.methodDef) ∧
    out.implMethods.length = t.methods.length ∧
    ∀ gm ∈ out.implMethods,
      gm.arms.map (·.variantName) = e.variants.map (·.name) ∧
      gm.arms.length = e.variants.length := by
  obtain ⟨-, hm, -, -, -, -, -⟩ := dispatch_ok_inv t e out h
  obtain ⟨h1, -, -, -, h5⟩ := munch_ok_spec _ _ _ _ hm
  refine ⟨h1, ?_, ?_⟩
  · simpa using congrArg List.length h1
  · intro gm hgm
    rcases h5 gm hgm with ⟨nm, -, harms⟩ | ⟨nm, -, harms⟩ <;>
      exact ⟨by simp [harms], by simp [harms]⟩

/-- C1 witness at the crate documentation example. -/
theorem impl_block_shape_example :
    outFull.implMethods.map (·.methodDef) = traitFull.methods.map (·.methodDef) ∧
    outFull.implMethods.length = traitFull.methods.length ∧
    ∀ gm ∈ outFull.implMethods,
      gm.arms.map (·.variantName) = enumFull.variants.map (·.name) ∧
      gm.arms.length = enumFull.variants.length :=
  impl_block_has_k_methods_n_arms_in_order traitFull enumFull outFull rfl

/-- C7: the generator's output is purely additive; the contract and union
declarations are re-emitted unchanged, with the implementation block and
the conversion functions only appended alongside them. -/
theorem original_declarations_reemitted_unchanged (t : TraitDecl) (e : EnumDecl)
    (out : Output) (h : enum_dispatch [.traitBlock t, .enumBlock e] = .ok out) :
    out.traitDecl = t ∧ out.enumDecl = e ∧
    out.implTrait = t.name ∧ out.implFor = e.name := by
  obtain ⟨-, -, h3, h4, h5, h6, -⟩ := dispatch_ok_inv t e out h
  exact ⟨h3, h4, h5, h6⟩

/-- C7 witness at the crate documentation example. -/
theorem reemission_example :
    outFull.traitDecl = traitFull ∧ outFull.enumDecl = enumFull ∧
    outFull.implTrait = traitFull.name ∧ outFull.implFor = enumFull.name :=
  original_declarations_reemitted_unchanged traitFull enumFull outFull rfl

/-- C5: the generated implementation block does not depend on default
bodies; stripping every default-body span from the trait leaves the
implementation block unchanged, so a method with a default body gets a
forwarding method identical to one without, and the body span is never
reproduced inside the generated union implementation. -/
theorem default_bodies_discarded_in_impl (t : TraitDecl) (e : EnumDecl) :
    (enum_dispatch [.traitBlock
        ⟨t.attrs, t.vis, t.name, t.lifetimeBound, t.superTraits, t.methods.map stripBody⟩,
      .enumBlock e]).map (·.implMethods) =
    (enum_dispatch [.traitBlock t, .enumBlock e]).map (·.implMethods) := by
  rw [enum_dispatch, enum_dispatch]
  by_cases he : e.variants = []
  · rw [if_pos he, if_pos he]
  · rw [if_neg he, if_neg he]
    have hms : (⟨t.attrs, t.vis, t.name, t.lifetimeBound, t.superTraits,
        t.methods.map stripBody⟩ : TraitDecl).methods = t.methods.map stripBody := rfl
    rw [hms, munch_stripBody]
    cases __munch_methods t.methods e.variants e.name <;> rfl

/-- C9: the entry point's single arm accepts exactly a contract block
followed by a union block with a nonempty variant list; any input
violating that shape is refused immediately with the structural
diagnostic, producing no output. -/
theorem top_level_shape_violation_aborts (input : List TopDecl)
    (h : ∀ t e, input = [.traitBlock t, .enumBlock e] → e.variants = []) :
    enum_dispatch input = .error structuralMismatchMsg := by
  cases input with
  | nil => rfl
  | cons a l =>
    cases a with
    | enumBlock e => rfl
    | traitBlock t =>
      cases l with
      | nil => rfl
      | cons b l2 =>
        cases b with
        | traitBlock t2 => rfl
        | enumBlock e =>
          cases l2 with
          | cons c l3 => rfl
          | nil =>
            have he := h t e rfl
            rw [enum_dispatch, if_pos he]

/-- C9 witness: the two blocks in the wrong order are refused. -/
theorem wrong_order_aborts_example :
    enum_dispatch [.enumBlock enumFull, .traitBlock traitFull] =
      .error structuralMismatchMsg :=
  top_level_shape_violation_aborts [.enumBlock enumFull, .traitBlock traitFull]
    (fun t e hte => by simp at hte)

/-- C10: a method whose first parameter position is a lone identifier with
no type annotation is classified by-value with that identifier as the
receiver name, whatever the identifier is, and the missing-receiver
diagnostic is not triggered; munching proceeds normally. -/
theorem lone_ident_receiver_classified_by_value (m : RawMethod) (rest : List RawMethod)
    (vs : List Variant) (en nm ident : String)
    (hdef : m.methodDef = ["fn", nm]) (hrecv : m.recv = .plainIdent ident) :
    __munch_methods (m :: rest) vs en =
      (__munch_methods rest vs en).map
        (fun gms => (⟨m.attrs, ["fn", nm], .byValue, ident, m.args, m.ret, ident,
          vs.map fun v => ⟨v.attrs, en, v.name, .call "v" nm (m.args.map Prod.fst)⟩⟩ :
            GenMethod) :: gms) := by
  rw [__munch_methods, hrecv]
  simp only [classifyRecv, __build_method, hdef, make_match, Option.map_some']

/-- C10 witness: fn f(this) munches into a by-value forwarding method with
receiver name this. -/
theorem lone_ident_receiver_example :
    __munch_methods [⟨[], ["fn", "f"], .plainIdent "this", [], none, none⟩]
        [rectVariant] "Shape" =
      (__munch_methods [] [rectVariant] "Shape").map
        (fun gms => (⟨[], ["fn", "f"], .byValue, "this", [], none, "this",
          [rectVariant].map fun v =>
            ⟨v.attrs, "Shape", v.name, .call "v" "f" []⟩⟩ :
              GenMethod) :: gms) :=
  lone_ident_receiver_classified_by_value
    ⟨[], ["fn", "f"], .plainIdent "this", [], none, none⟩ [] [rectVariant]
    "Shape" "f" "this" rfl rfl

/-- C3 counterexample: on the typed-first-parameter method fn foo(x: i32)
the emitted diagnostic stringifies the whole methodDef run, so it reads
method `fn foo` should receive self, not method `foo` should receive self
as the claim's template instantiates. -/
theorem missing_receiver_message_counterexample :
    enum_dispatch [.traitBlock badTrait, .enumBlock enumTwo] =
      .error "method `fn foo` should receive self" ∧
    "method `fn foo` should receive self" ≠ "method `foo` should receive self" :=
  ⟨rfl, by decide⟩

/-- C3 amended: a method whose receiver position matches none of the three
receiver forms makes generation fail with the deterministic diagnostic
method `DEF` should receive self, where DEF is the method's stringified
keyword-and-name run (which contains the method's name), and no output is
produced. -/
theorem missing_receiver_aborts_with_methoddef_diagnostic (t : TraitDecl) (e : EnumDecl)
    (m : RawMethod) (rest : List RawMethod)
    (hbody : t.methods = m :: rest) (hrecv : classifyRecv m.recv = none)
    (hne : e.variants ≠ []) :
    enum_dispatch [.traitBlock t, .enumBlock e] =
      .error (missingReceiverMsg m.methodDef) ∧
    ∀ out, enum_dispatch [.traitBlock t, .enumBlock e] ≠ .ok out := by
  have hmain : enum_dispatch [.traitBlock t, .enumBlock e] =
      .error (missingReceiverMsg m.methodDef) := by
    rw [enum_dispatch, if_neg hne, hbody, __munch_methods, hrecv]
  exact ⟨hmain, fun out hout => by rw [hmain] at hout; exact Except.noConfusion hout⟩

/-- C3 amended witness at the fn foo(x: i32) method. -/
theorem missing_receiver_aborts_example :
    enum_dispatch [.traitBlock badTrait, .enumBlock enumTwo] =
      .error (missingReceiverMsg ["fn", "foo"]) :=
  (missing_receiver_aborts_with_methoddef_diagnostic badTrait enumTwo
    ⟨[], ["fn", "foo"], .typedParam "x" "i32", [], none, none⟩ [] rfl rfl
    (by decide)).1

/-- C4: every generated method is either async-marked, in which case every
arm suspends on (awaits) the forwarded call before yielding it, or plain,
in which case every arm yields the forwarded call's value directly with no
suspension point. -/
theorem async_arms_await_plain_arms_direct (t : TraitDecl) (e : EnumDecl)
    (out : Output) (h : enum_dispatch [.traitBlock t, .enumBlock e] = .ok out) :
    ∀ gm ∈ out.implMethods,
      (∃ nm, gm.methodDef = ["async", "fn", nm] ∧
        ∀ a ∈ gm.arms, a.body = .await (.call "v" nm (gm.args.map Prod.fst))) ∨
      (∃ nm, gm.methodDef = ["fn", nm] ∧
        ∀ a ∈ gm.arms, a.body = .call "v" nm (gm.args.map Prod.fst)) := by
  obtain ⟨-, hm, -, -, -, -, -⟩ := dispatch_ok_inv t e out h
  obtain ⟨-, -, -, -, h5⟩ := munch_ok_spec _ _ _ _ hm
  intro gm hgm
  rcases h5 gm hgm with ⟨nm, hdef, harms⟩ | ⟨nm, hdef, harms⟩
  · refine Or.inr ⟨nm, hdef, ?_⟩
    intro a ha
    rw [harms] at ha
    obtain ⟨v, -, rfl⟩ := List.mem_map.mp ha
    rfl
  · refine Or.inl ⟨nm, hdef, ?_⟩
    intro a ha
    rw [harms] at ha
    obtain ⟨v, -, rfl⟩ := List.mem_map.mp ha
    rfl

/-- C4 witness at the async send method of the documentation example. -/
theorem async_arm_await_example :
    (∃ nm, (outFull.implMethods.getD 3 default).methodDef = ["async", "fn", nm] ∧
      ∀ a ∈ (outFull.implMethods.getD 3 default).arms,
        a.body = .await (.call "v" nm
          ((outFull.implMethods.getD 3 default).args.map Prod.fst))) ∨
    (∃ nm, (outFull.implMethods.getD 3 default).methodDef = ["fn", nm] ∧
      ∀ a ∈ (outFull.implMethods.getD 3 default).arms,
        a.body = .call "v" nm
          ((outFull.implMethods.getD 3 default).args.map Prod.fst)) :=
  async_arms_await_plain_arms_direct traitFull enumFull outFull rfl
    (outFull.implMethods.getD 3 default) (by decide)

/-- C2: the generator emits exactly one conversion function per variant,
in variant order, from that variant's payload type; and converting a
payload into the union with that conversion then extracting the bound
payload through any generated branch-on-tag yields it back unchanged. -/
theorem from_impls_unique_and_roundtrip (t : TraitDecl) (e : EnumDecl)
    (out : Output) (h : enum_dispatch [.traitBlock t, .enumBlock e] = .ok out) :
    out.fromImpls.map (fun f => (f.attrs, f.sourceType, f.variantName)) =
      e.variants.map (fun v => (v.attrs, v.payloadType, v.name)) ∧
    ∀ v ∈ e.variants, ∀ gm ∈ out.implMethods, ∀ (α : Type) (x : α) (env : String → α),
      evalMatch (fun _ _ _ p => p) env gm.arms
        (applyFrom ⟨v.attrs, v.payloadType, e.name, v.name⟩ x) = some x := by
  obtain ⟨-, hm, -, -, -, -, hfrom⟩ := dispatch_ok_inv t e out h
  obtain ⟨-, -, -, -, h5⟩ := munch_ok_spec _ _ _ _ hm
  refine ⟨by rw [hfrom]; simp, ?_⟩
  intro v hv gm hgm α x env
  have hnames : gm.arms.map (·.variantName) = e.variants.map (·.name) := by
    rcases h5 gm hgm with ⟨nm, -, harms⟩ | ⟨nm, -, harms⟩ <;> simp [harms]
  have hvn : v.name ∈ gm.arms.map (·.variantName) := by
    rw [hnames]; exact List.mem_map_of_mem _ hv
  obtain ⟨a, ha, hav⟩ := List.mem_map.mp hvn
  have hsome : (gm.arms.find? (fun a => a.variantName == v.name)).isSome := by
    rw [List.find?_isSome]
    exact ⟨a, ha, by simp [hav]⟩
  obtain ⟨a', hfind⟩ := Option.isSome_iff_exists.mp hsome
  show (match gm.arms.find? (fun a => a.variantName == v.name) with
    | some arm => some (evalArmExpr (fun _ _ p => p) env x arm.body)
    | none => none) = some x
  rw [hfind]
  exact congrArg some (evalArmExpr_id env x a'.body)

/-- C2 witness: a Nat payload converted into the union through the Rect
conversion and extracted through the name method's branch-on-tag. -/
theorem from_roundtrip_example :
    evalMatch (fun _ _ _ p => p) (fun _ => (0 : Nat))
      (outFull.implMethods.getD 1 default).arms
      (applyFrom ⟨rectVariant.attrs, rectVariant.payloadType, enumFull.name,
        rectVariant.name⟩ 5) = some 5 :=
  (from_impls_unique_and_roundtrip traitFull enumFull outFull rfl).2
    rectVariant (by decide) (outFull.implMethods.getD 1 default) (by decide)
    Nat 5 (fun _ => 0)

/-- C6: a variant whose inclusion attribute evaluates to excluded for the
build configuration is absent from the emitted variant list, from every
generated arm and from the conversions, while the surviving variants stay
complete and mutually consistent, in order, across all three artifacts. -/
theorem excluded_variant_absent_and_lists_consistent (t : TraitDecl) (e : EnumDecl)
    (out : Output) (h : enum_dispatch [.traitBlock t, .enumBlock e] = .ok out)
    (cfg : List String) (v : Variant)
    (hv : v ∈ e.variants) (hexcl : attrsActive cfg v.attrs = false) :
    v ∉ filterVariants cfg out.enumDecl.variants ∧
    (∀ gm ∈ out.implMethods, ∀ a ∈ filterArms cfg gm.arms,
      ¬(a.varAttrs = v.attrs ∧ a.variantName = v.name)) ∧
    (∀ f ∈ filterFromImpls cfg out.fromImpls,
      ¬(f.attrs = v.attrs ∧ f.variantName = v.name)) ∧
    (∀ gm ∈ out.implMethods,
      (filterArms cfg gm.arms).map (fun a => (a.varAttrs, a.variantName)) =
        (filterVariants cfg e.variants).map fun w => (w.attrs, w.name)) ∧
    (filterFromImpls cfg out.fromImpls).map
        (fun f => (f.attrs, f.sourceType, f.variantName)) =
      (filterVariants cfg e.variants).map fun w => (w.attrs, w.payloadType, w.name) := by
  obtain ⟨-, hm, -, henum, -, -, hfrom⟩ := dispatch_ok_inv t e out h
  obtain ⟨-, -, -, -, h5⟩ := munch_ok_spec _ _ _ _ hm
  refine ⟨?_, ?_, ?_, ?_, ?_⟩
  · intro hmem
    rw [henum] at hmem
    have := (List.mem_filter.mp hmem).2
    rw [hexcl] at this
    exact Bool.false_ne_true this
  · intro gm hgm a ha hcontr
    have := (List.mem_filter.mp ha).2
    rw [hcontr.1, hexcl] at this
    exact Bool.false_ne_true this
  · intro f hf hcontr
    have := (List.mem_filter.mp hf).2
    rw [hcontr.1, hexcl] at this
    exact Bool.false_ne_true this
  · intro gm hgm
    rcases h5 gm hgm with ⟨nm, -, harms⟩ | ⟨nm, -, harms⟩ <;>
      simp [harms, filterArms, filterVariants, filter_of_map]
  · rw [hfrom]
    simp [filterFromImpls, filterVariants, filter_of_map]

/-- C6 witness: with no features enabled, the feature-gated Cube variant
is excluded and absent from the filtered variant list of the example. -/
theorem excluded_variant_absent_example :
    attrsActive [] cubeVariant.attrs = false ∧
    cubeVariant ∉ filterVariants [] outFull.enumDecl.variants :=
  ⟨by decide,
    (excluded_variant_absent_and_lists_consistent traitFull enumFull outFull rfl
      [] cubeVariant (by decide) (by decide)).1⟩

/-- C8: on the two-method, two-variant scenario the generated block has 2
methods with 2 arms each, and running the generated grow dispatch on a
union value wrapping a Rect payload produces exactly the mutation of
calling Rect::grow directly with the same arguments. -/
theorem example_scenario_two_methods_two_variants :
    enum_dispatch inputTwo = .ok outTwo ∧
    outTwo.implMethods.map (fun gm => gm.arms.length) = [2, 2] ∧
    ∀ (w h n d : Int),
      evalMatch shapeImpl (fun s => if s = "numerator" then n else d)
        (outTwo.implMethods.getD 1 default).arms ⟨"Rect", .rect ⟨w, h⟩⟩ =
        some (.rect (Rect.grow ⟨w, h⟩ n d)) :=
  ⟨rfl, rfl, fun w h n d => rfl⟩
